import Mathlib

/-!
# Shallow embedding of `src/tracker.py` (Visa-tracker)

Calendar dates are modelled as integers (a day number); Python's
`(d2 - d1).days` becomes `d2 - d1` and `d + timedelta(days=k)` becomes `d + k`.
Python exceptions (in particular `IndexError` from list subscripts) are
modelled by `Option`/`Except` results; Python's negative-index semantics for
list subscripts are modelled explicitly by `pyget`.
-/

namespace VisaTracker

/-- `Trip` (tracker.py lines 14-23): a continuous period abroad, inclusive of
both endpoints.  The Python constructor rejects `end < start`; here validity is
the predicate `Trip.Valid`. -/
structure Trip where
  start : Int
  stop : Int
deriving DecidableEq

/-- The constructor invariant of a Python `Trip`: `end >= start`. -/
def Trip.Valid (t : Trip) : Prop := t.start ≤ t.stop

instance (t : Trip) : Decidable t.Valid := by
  unfold Trip.Valid; infer_instance

/-- `Period = Tuple[date, date]` (tracker.py line 26). -/
abbrev Period := Int × Int

/-- `clamp_trip_to_period` (tracker.py lines 40-46). -/
def clamp_trip_to_period (t : Trip) (p : Period) : Option Trip :=
  let s := max t.start p.1
  let e := min t.stop p.2
  if e < s then none else some ⟨s, e⟩

/-- The loop of `merge_overlapping_trips` (tracker.py lines 54-62): `cur` is
the running interval, the list argument is the remaining sorted trips; the
final `merged.append(cur)` is the `[cur]` base case. -/
def merge_loop (cur : Trip) : List Trip → List Trip
  | [] => [cur]
  | t :: ts =>
    if t.start ≤ cur.stop + 1 then merge_loop ⟨cur.start, max cur.stop t.stop⟩ ts
    else cur :: merge_loop t ts

instance trip_le_decidable : DecidableRel (fun a b : Trip => a.start ≤ b.start) :=
  fun a b => Int.decLe a.start b.start

instance trip_le_total : IsTotal Trip (fun a b : Trip => a.start ≤ b.start) :=
  ⟨fun a b => Int.le_total a.start b.start⟩

instance trip_le_trans : IsTrans Trip (fun a b : Trip => a.start ≤ b.start) :=
  ⟨fun _ _ _ h h' => le_trans h h'⟩

/-- `merge_overlapping_trips` (tracker.py lines 49-63): sort by start
(Python's `sorted` with key `t.start` — a stable ascending sort, modelled by
the stable `List.insertionSort`), then left-to-right merge. -/
def merge_overlapping_trips (trips : List Trip) : List Trip :=
  match List.insertionSort (fun a b : Trip => a.start ≤ b.start) trips with
  | [] => []
  | t :: ts => merge_loop t ts

/-- The inner marking loop `for i in range(si, ei + 1): flags[i] = 1` of
`build_abroad_day_flags` (tracker.py lines 84-85); the second argument is the
current index, the third the number of remaining iterations. -/
def set_ones : List Int → Nat → Nat → List Int
  | fs, _, 0 => fs
  | fs, i, c + 1 => set_ones (fs.set i 1) (i + 1) c

/-- The body of the `for trip in trips` loop of `build_abroad_day_flags`
(tracker.py lines 77-85): clamp the trip to the period and mark its days. -/
def mark_trip (p : Period) (fs : List Int) (t : Trip) : List Int :=
  let s := max t.start p.1
  let e := min t.stop p.2
  if e < s then fs
  else set_ones fs (s - p.1).toNat ((e - s).toNat + 1)

/-- `build_abroad_day_flags` (tracker.py lines 66-86): per-day 0/1 presence
record over the period, together with the period start as base date. -/
def build_abroad_day_flags (trips : List Trip) (p : Period) : List Int × Int :=
  let total_days := p.2 - p.1 + 1
  let flags := List.replicate total_days.toNat 0
  if trips.isEmpty then (flags, p.1)
  else (trips.foldl (mark_trip p) flags, p.1)

/-- The prefix-sum array `[0]*(n+1)` with `pre[i+1] = pre[i] + v` built by
tracker.py lines 94-96 and 115-117: entry `k` is the sum of the first `k`
flags. -/
def pre_sums (flags : List Int) : List Int :=
  (List.range (flags.length + 1)).map (fun k => (flags.take k).sum)

/-- Python list subscript `l[i]` for an integer index: a negative index is
first shifted by the length, then the bounds are checked; an out-of-range
access raises `IndexError` (modelled as `none`). -/
def pyget (l : List Int) (i : Int) : Option Int :=
  if i < 0 then
    if 0 ≤ i + l.length then some (l.getD (i + l.length).toNat 0) else none
  else
    if i < (l.length : Int) then some (l.getD i.toNat 0) else none

/-- `sum_in_window` (tracker.py lines 89-97), with
`end = min(start_index + window_days - 1, n - 1)` written inline. -/
def sum_in_window (flags : List Int) (start_index window_days : Int) : Option Int :=
  if flags.length = 0 then some 0
  else
    match pyget (pre_sums flags)
        (min (start_index + window_days - 1) ((flags.length : Int) - 1) + 1),
      pyget (pre_sums flags) start_index with
    | some a, some b => some (a - b)
    | _, _ => none

/-- The `for start in range(n)` loop of `rolling_window_violations`
(tracker.py lines 119-124), with `end = min(start + window_days - 1, n - 1)`
written inline; the accumulator is the `violations` list. -/
def rwv_loop (pre : List Int) (n window_days max_allowed : Int) :
    List Int → List (Int × Int × Int) → Option (List (Int × Int × Int))
  | [], acc => some acc
  | s :: rest, acc =>
    match pyget pre (min (s + window_days - 1) (n - 1) + 1), pyget pre s with
    | some a, some b =>
      rwv_loop pre n window_days max_allowed rest
        (if a - b > max_allowed then
          acc ++ [(s, min (s + window_days - 1) (n - 1), a - b)]
        else acc)
    | _, _ => none

/-- `rolling_window_violations` (tracker.py lines 100-125). -/
def rolling_window_violations (flags : List Int) (window_days max_allowed : Int) :
    Option (List (Int × Int × Int)) :=
  let n : Int := flags.length
  if flags.length = 0 then some []
  else
    rwv_loop (pre_sums flags) n window_days max_allowed
      ((List.range flags.length).map (fun k : Nat => (k : Int))) []

/-- Python's `max(humanized, key=lambda w: w[2])` on a nonempty list
(tracker.py line 154): left-to-right scan keeping the current element unless a
strictly larger key appears, so the first maximal element wins. -/
def max_by_days (x : Int × Int × Int) (xs : List (Int × Int × Int)) : Int × Int × Int :=
  xs.foldl (fun best w => if best.2.2 < w.2.2 then w else best) x

/-- `check_abroad_days` (tracker.py lines 128-156): clamp, merge, build the
presence record, scan, humanize indices into dates and pick the worst window.
`none` models an uncaught `IndexError` escaping the scan. -/
def check_abroad_days (trips : List Trip) (assessment_period : Period)
    (window_days max_allowed : Int) :
    Option (Bool × List (Int × Int × Int) × Option (Int × Int × Int)) :=
  let clamped := trips.filterMap (fun t => clamp_trip_to_period t assessment_period)
  let merged := merge_overlapping_trips clamped
  let fb := build_abroad_day_flags merged assessment_period
  (rolling_window_violations fb.1 window_days max_allowed).map (fun raw =>
    let humanized := raw.map (fun v => (fb.2 + v.1, fb.2 + v.2.1, v.2.2))
    let worst : Option (Int × Int × Int) :=
      match humanized with
      | [] => none
      | x :: xs => some (max_by_days x xs)
    (humanized.isEmpty, humanized, worst))

/-- Errors surfaced by the CLI entry point: `SystemExit` on a backwards
assessment period (tracker.py lines 632-633), or an `IndexError` escaping the
core. -/
inductive CheckError where
  | invalidPeriod
  | indexError
deriving DecidableEq

deriving instance DecidableEq for Except

/-- The CLI path of `main` around the evaluator (tracker.py lines 631-658):
validate the assessment period, then run `check_abroad_days`. -/
def run_check (trips : List Trip) (from_date to_date window_days max_days : Int) :
    Except CheckError (Bool × List (Int × Int × Int) × Option (Int × Int × Int)) :=
  if to_date < from_date then .error .invalidPeriod
  else
    match check_abroad_days trips (from_date, to_date) window_days max_days with
    | some r => .ok r
    | none => .error .indexError

/-- The remaining-days query path of `main` (tracker.py lines 673-686):
rebuild the presence record, clamp the query start from below to the period
start, sum the window and return `max(0, max_days - abroad_in_q)`. -/
def remaining_query (trips : List Trip) (p : Period) (window_days max_days q_start : Int) :
    Option Int :=
  let clamped := trips.filterMap (fun t => clamp_trip_to_period t p)
  let merged := merge_overlapping_trips clamped
  let fb := build_abroad_day_flags merged p
  let q := if q_start < fb.2 then fb.2 else q_start
  let si := q - fb.2
  (sum_in_window fb.1 si window_days).map (fun s => max 0 (max_days - s))

/-- Count of present days of `flags` over the inclusive index range `[a, b]`
(for `0 ≤ a`); the empty range counts zero. -/
def count_present (flags : List Int) (a b : Int) : Int :=
  ((flags.drop a.toNat).take (b - a + 1).toNat).sum

/-- Modelled from the spec's description of the window scan (spec §4.3, claim
C2): for each start, the truncated window end and its present-day count, kept
iff the count strictly exceeds `max_allowed`. -/
def scan_spec (flags : List Int) (window_days max_allowed : Int) :
    List (Int × Int × Int) :=
  (((List.range flags.length).map (fun k : Nat => (k : Int))).map (fun s =>
    (s, min (s + window_days - 1) ((flags.length : Int) - 1),
      count_present flags s (min (s + window_days - 1) ((flags.length : Int) - 1))))).filter
    (fun v => max_allowed < v.2.2)

/-- A concrete trip set realizing the spec's Scenario E over the period
`(0, 222)` with `window_days = 182` and `max_allowed = 180`: exactly two
violating windows, at start indices 5 and 40, both with 181 present days. -/
def scenario_trips : List Trip := [⟨0, 3⟩, ⟨5, 38⟩, ⟨40, 186⟩, ⟨188, 221⟩]

/-- The presence record produced by `scenario_trips` over the period
`(0, 222)`: absent exactly on days 4, 39, 187 and 222. -/
def scenario_flags : List Int :=
  List.replicate 4 1 ++ [0] ++ List.replicate 34 1 ++ [0] ++
    List.replicate 147 1 ++ [0] ++ List.replicate 34 1 ++ [0]

/-! ## Helper lemmas: prefix sums and `sum_in_window` -/

theorem length_pre_sums (flags : List Int) :
    (pre_sums flags).length = flags.length + 1 := by
  simp [pre_sums]

theorem pyget_pre_sums (flags : List Int) (k : Int) (h0 : 0 ≤ k)
    (h1 : k ≤ (flags.length : Int)) :
    pyget (pre_sums flags) k = some ((flags.take k.toNat).sum) := by
  have hk : k.toNat < flags.length + 1 := by omega
  unfold pyget
  rw [if_neg (by omega), if_pos (by rw [length_pre_sums]; omega)]
  rw [List.getD_eq_getElem?_getD]
  unfold pre_sums
  rw [List.getElem?_map, List.getElem?_range hk]
  rfl

theorem pyget_pre_sums_none (flags : List Int) (k : Int)
    (h : (flags.length : Int) < k) :
    pyget (pre_sums flags) k = none := by
  unfold pyget
  rw [if_neg (by omega), if_neg (by rw [length_pre_sums]; push_cast; omega)]

theorem take_sum_sub (flags : List Int) (a b : Int) (h0 : 0 ≤ a) (h1 : a ≤ b + 1) :
    (flags.take (b + 1).toNat).sum - (flags.take a.toNat).sum =
      count_present flags a b := by
  have hsplit : (b + 1).toNat = a.toNat + (b - a + 1).toNat := by omega
  rw [hsplit, List.take_add, List.sum_append, count_present]
  ring

theorem sum_in_window_eq (flags : List Int) (si wd : Int) (h0 : 0 ≤ si)
    (h1 : si ≤ (flags.length : Int)) (hw : 0 ≤ wd) :
    sum_in_window flags si wd =
      some (count_present flags si (min (si + wd - 1) ((flags.length : Int) - 1))) := by
  by_cases hn : flags.length = 0
  · have hflags : flags = [] := List.length_eq_zero.mp hn
    subst hflags
    simp only [sum_in_window, List.length_nil, if_pos rfl]
    have hsi : si = 0 := by simpa using (by omega : si = 0)
    subst hsi
    have : ((0 : Int) + wd - 1) ⊓ ((([] : List Int).length : Int) - 1) = -1 := by
      simp; omega
    rw [count_present]
    simp
  · have hn1 : 1 ≤ flags.length := Nat.one_le_iff_ne_zero.mpr hn
    have hmin : si ≤ min (si + wd - 1) ((flags.length : Int) - 1) + 1 := by omega
    have hup : min (si + wd - 1) ((flags.length : Int) - 1) + 1 ≤ (flags.length : Int) := by
      omega
    have hlow : 0 ≤ min (si + wd - 1) ((flags.length : Int) - 1) + 1 := by omega
    unfold sum_in_window
    rw [if_neg hn, pyget_pre_sums flags _ hlow hup, pyget_pre_sums flags si h0 h1]
    exact congrArg some
      (take_sum_sub flags si (min (si + wd - 1) ((flags.length : Int) - 1)) h0 hmin)

theorem sum_in_window_none (flags : List Int) (si wd : Int)
    (hn : flags.length ≠ 0) (hsi : (flags.length : Int) < si) (hw : 0 ≤ wd) :
    sum_in_window flags si wd = none := by
  have hmin : min (si + wd - 1) ((flags.length : Int) - 1) = (flags.length : Int) - 1 := by
    omega
  unfold sum_in_window
  rw [if_neg hn, hmin,
    pyget_pre_sums flags ((flags.length : Int) - 1 + 1) (by omega) (by omega),
    pyget_pre_sums_none flags si hsi]

/-! ## Helper lemmas: the rolling-window scan -/

theorem rwv_loop_cons_some (pre : List Int) (n wd ma s : Int) (rest : List Int)
    (acc : List (Int × Int × Int)) (a b : Int)
    (h1 : pyget pre (min (s + wd - 1) (n - 1) + 1) = some a)
    (h2 : pyget pre s = some b) :
    rwv_loop pre n wd ma (s :: rest) acc =
      rwv_loop pre n wd ma rest
        (if a - b > ma then acc ++ [(s, min (s + wd - 1) (n - 1), a - b)] else acc) := by
  rw [rwv_loop, h1, h2]

theorem rwv_loop_cons_none_fst (pre : List Int) (n wd ma s : Int) (rest : List Int)
    (acc : List (Int × Int × Int))
    (h1 : pyget pre (min (s + wd - 1) (n - 1) + 1) = none) :
    rwv_loop pre n wd ma (s :: rest) acc = none := by
  rw [rwv_loop, h1]

theorem rwv_loop_cons_none_snd (pre : List Int) (n wd ma s : Int) (rest : List Int)
    (acc : List (Int × Int × Int)) (a : Int)
    (h1 : pyget pre (min (s + wd - 1) (n - 1) + 1) = some a)
    (h2 : pyget pre s = none) :
    rwv_loop pre n wd ma (s :: rest) acc = none := by
  rw [rwv_loop, h1, h2]

theorem rwv_loop_spec (flags : List Int) (wd ma : Int) (hwd : 0 ≤ wd) :
    ∀ (starts : List Int) (acc : List (Int × Int × Int)),
      (∀ s ∈ starts, 0 ≤ s ∧ s < (flags.length : Int)) →
      rwv_loop (pre_sums flags) (flags.length : Int) wd ma starts acc =
        some (acc ++ (starts.map (fun s =>
          (s, min (s + wd - 1) ((flags.length : Int) - 1),
            count_present flags s (min (s + wd - 1) ((flags.length : Int) - 1))))).filter
          (fun v => ma < v.2.2)) := by
  intro starts
  induction starts with
  | nil => intro acc _; simp [rwv_loop]
  | cons s rest ih =>
    intro acc hmem
    obtain ⟨hs0, hs1⟩ := hmem s (List.mem_cons_self s rest)
    have hup : min (s + wd - 1) ((flags.length : Int) - 1) + 1 ≤ (flags.length : Int) := by
      omega
    have hlow : 0 ≤ min (s + wd - 1) ((flags.length : Int) - 1) + 1 := by omega
    have hse : s ≤ min (s + wd - 1) ((flags.length : Int) - 1) + 1 := by omega
    have hcount := take_sum_sub flags s (min (s + wd - 1) ((flags.length : Int) - 1)) hs0 hse
    rw [rwv_loop_cons_some (pre_sums flags) (flags.length : Int) wd ma s rest acc _ _
      (pyget_pre_sums flags _ hlow hup) (pyget_pre_sums flags s hs0 (by omega)), hcount]
    by_cases hcond : ma < count_present flags s (min (s + wd - 1) ((flags.length : Int) - 1))
    · rw [if_pos hcond, ih _ (fun u hu => hmem u (List.mem_cons_of_mem s hu))]
      simp [List.filter_cons, hcond]
    · rw [if_neg hcond, ih _ (fun u hu => hmem u (List.mem_cons_of_mem s hu))]
      simp [List.filter_cons, hcond]

theorem rolling_eq_scan_spec (flags : List Int) (wd ma : Int) (hwd : 0 ≤ wd) :
    rolling_window_violations flags wd ma = some (scan_spec flags wd ma) := by
  by_cases hn : flags.length = 0
  · have : flags = [] := List.length_eq_zero.mp hn
    subst this
    simp [rolling_window_violations, scan_spec]
  · unfold rolling_window_violations
    rw [if_neg hn,
      rwv_loop_spec flags wd ma hwd _ []
        (by
          intro s hs
          simp only [List.mem_map, List.mem_range] at hs
          obtain ⟨k, hk, rfl⟩ := hs
          exact ⟨Int.ofNat_nonneg k, by exact_mod_cast hk⟩)]
    rw [scan_spec]
    simp

theorem rwv_loop_acc (pre : List Int) (n wd ma : Int) :
    ∀ (starts : List Int) (acc : List (Int × Int × Int)),
      rwv_loop pre n wd ma starts acc =
        (rwv_loop pre n wd ma starts []).map (fun l => acc ++ l) := by
  intro starts
  induction starts with
  | nil => intro acc; simp [rwv_loop]
  | cons s rest ih =>
    intro acc
    cases h1 : pyget pre (min (s + wd - 1) (n - 1) + 1) with
    | none => rw [rwv_loop_cons_none_fst pre n wd ma s rest acc h1,
        rwv_loop_cons_none_fst pre n wd ma s rest [] h1]; rfl
    | some a =>
      cases h2 : pyget pre s with
      | none => rw [rwv_loop_cons_none_snd pre n wd ma s rest acc a h1 h2,
          rwv_loop_cons_none_snd pre n wd ma s rest [] a h1 h2]; rfl
      | some b =>
        rw [rwv_loop_cons_some pre n wd ma s rest acc a b h1 h2,
          rwv_loop_cons_some pre n wd ma s rest [] a b h1 h2]
        by_cases hcond : a - b > ma
        · rw [if_pos hcond, if_pos hcond, ih, ih ([] ++ [(s, min (s + wd - 1) (n - 1), a - b)])]
          cases rwv_loop pre n wd ma rest [] with
          | none => rfl
          | some l => simp
        · rw [if_neg hcond, if_neg hcond, ih]

theorem rwv_loop_fst (pre : List Int) (n wd ma : Int) :
    ∀ (starts : List Int) (acc out : List (Int × Int × Int)),
      rwv_loop pre n wd ma starts acc = some out →
      ∃ e, out = acc ++ e ∧ List.Sublist (e.map (fun v => v.1)) starts := by
  intro starts
  induction starts with
  | nil =>
    intro acc out h
    rw [rwv_loop] at h
    refine ⟨[], ?_, List.nil_sublist []⟩
    have : acc = out := Option.some.inj h
    rw [← this, List.append_nil]
  | cons s rest ih =>
    intro acc out h
    cases h1 : pyget pre (min (s + wd - 1) (n - 1) + 1) with
    | none => rw [rwv_loop_cons_none_fst pre n wd ma s rest acc h1] at h; exact absurd h (by simp)
    | some a =>
      cases h2 : pyget pre s with
      | none => rw [rwv_loop_cons_none_snd pre n wd ma s rest acc a h1 h2] at h
                exact absurd h (by simp)
      | some b =>
        rw [rwv_loop_cons_some pre n wd ma s rest acc a b h1 h2] at h
        by_cases hcond : a - b > ma
        · rw [if_pos hcond] at h
          obtain ⟨e, he, hsub⟩ := ih _ out h
          refine ⟨(s, min (s + wd - 1) (n - 1), a - b) :: e, ?_, ?_⟩
          · rw [he]; simp
          · exact List.Sublist.cons₂ s (by simpa using hsub)
        · rw [if_neg hcond] at h
          obtain ⟨e, he, hsub⟩ := ih _ out h
          exact ⟨e, he, hsub.cons s⟩

theorem rolling_mono (flags : List Int) (wd m1 m2 : Int) (h12 : m1 ≤ m2) :
    ∀ vs2, rolling_window_violations flags wd m2 = some vs2 →
      ∃ vs1, rolling_window_violations flags wd m1 = some vs1 ∧ vs2.Sublist vs1 := by
  have loop : ∀ (starts : List Int) (out2 : List (Int × Int × Int)),
      rwv_loop (pre_sums flags) (flags.length : Int) wd m2 starts [] = some out2 →
      ∃ out1, rwv_loop (pre_sums flags) (flags.length : Int) wd m1 starts [] = some out1 ∧
        out2.Sublist out1 := by
    intro starts
    induction starts with
    | nil =>
      intro out2 h
      rw [rwv_loop] at h
      exact ⟨out2, by rw [rwv_loop, Option.some.inj h], List.Sublist.refl out2⟩
    | cons s rest ih =>
      intro out2 h
      cases h1 : pyget (pre_sums flags) (min (s + wd - 1) ((flags.length : Int) - 1) + 1) with
      | none =>
        rw [rwv_loop_cons_none_fst _ _ _ _ s rest [] h1] at h
        exact absurd h (by simp)
      | some a =>
        cases h2 : pyget (pre_sums flags) s with
        | none =>
          rw [rwv_loop_cons_none_snd _ _ _ _ s rest [] a h1 h2] at h
          exact absurd h (by simp)
        | some b =>
          rw [rwv_loop_cons_some _ _ _ _ s rest [] a b h1 h2, rwv_loop_acc] at h
          rw [rwv_loop_cons_some _ _ _ _ s rest [] a b h1 h2, rwv_loop_acc]
          cases hrec2 : rwv_loop (pre_sums flags) (flags.length : Int) wd m2 rest [] with
          | none => rw [hrec2] at h; exact absurd h (by simp)
          | some e2 =>
            rw [hrec2] at h
            obtain ⟨e1, hrec1, hsub⟩ := ih e2 hrec2
            rw [hrec1]
            simp only [Option.map_some', Option.some.injEq] at h ⊢
            by_cases hcond2 : a - b > m2
            · rw [if_pos hcond2] at h
              rw [if_pos (by omega : a - b > m1)]
              refine ⟨_, rfl, ?_⟩
              rw [← h]
              simpa using
                List.Sublist.cons₂ (s, min (s + wd - 1) ((flags.length : Int) - 1), a - b) hsub
            · rw [if_neg hcond2] at h
              by_cases hcond1 : a - b > m1
              · rw [if_pos hcond1]
                refine ⟨_, rfl, ?_⟩
                rw [← h]
                simpa using hsub.cons _
              · rw [if_neg hcond1]
                refine ⟨e1, rfl, ?_⟩
                rw [← h]
                simpa using hsub
  intro vs2 h
  unfold rolling_window_violations at h ⊢
  by_cases hn : flags.length = 0
  · rw [if_pos hn] at h ⊢
    exact ⟨vs2, h ▸ rfl, List.Sublist.refl vs2⟩
  · rw [if_neg hn] at h ⊢
    exact loop _ vs2 h

/-! ## Helper lemmas: interval merging -/

theorem merge_loop_go : ∀ (ts : List Trip) (cur : Trip), cur.Valid →
    (∀ t ∈ ts, t.Valid) →
    ts.Pairwise (fun a b : Trip => a.start ≤ b.start) →
    (∀ t ∈ ts, cur.start ≤ t.start) →
    (∀ u ∈ merge_loop cur ts, u.Valid) ∧
      (merge_loop cur ts).Pairwise (fun a b : Trip => a.stop + 2 ≤ b.start) ∧
      (∀ u ∈ merge_loop cur ts, cur.start ≤ u.start)
  | [], cur, hv, _, _, _ => by
    refine ⟨?_, ?_, ?_⟩ <;> simp [merge_loop, hv]
  | t :: ts, cur, hv, hvs, hp, hs => by
    rw [merge_loop]
    rw [List.pairwise_cons] at hp
    by_cases hcase : t.start ≤ cur.stop + 1
    · rw [if_pos hcase]
      have hv' : Trip.Valid ⟨cur.start, max cur.stop t.stop⟩ := by
        unfold Trip.Valid at hv ⊢
        simp only
        omega
      exact merge_loop_go ts ⟨cur.start, max cur.stop t.stop⟩ hv'
        (fun u hu => hvs u (List.mem_cons_of_mem t hu)) hp.2
        (fun u hu => hs u (List.mem_cons_of_mem t hu))
    · rw [if_neg hcase]
      obtain ⟨hrv, hrp, hrs⟩ := merge_loop_go ts t (hvs t (List.mem_cons_self t ts))
        (fun u hu => hvs u (List.mem_cons_of_mem t hu)) hp.2 hp.1
      refine ⟨?_, ?_, ?_⟩
      · intro u hu
        rcases List.mem_cons.mp hu with h | h
        · rw [h]; exact hv
        · exact hrv u h
      · rw [List.pairwise_cons]
        refine ⟨fun u hu => ?_, hrp⟩
        have h1 := hrs u hu
        omega
      · intro u hu
        rcases List.mem_cons.mp hu with h | h
        · rw [h]
        · have h1 := hrs u h
          have h2 := hs t (List.mem_cons_self t ts)
          omega

theorem merge_facts (trips : List Trip) (h : ∀ t ∈ trips, t.Valid) :
    (∀ u ∈ merge_overlapping_trips trips, u.Valid) ∧
      (merge_overlapping_trips trips).Pairwise (fun a b : Trip => a.stop + 2 ≤ b.start) := by
  unfold merge_overlapping_trips
  have hsorted := List.sorted_insertionSort (fun a b : Trip => a.start ≤ b.start) trips
  have hperm := List.perm_insertionSort (fun a b : Trip => a.start ≤ b.start) trips
  cases hs : List.insertionSort (fun a b : Trip => a.start ≤ b.start) trips with
  | nil => simp
  | cons t ts =>
    rw [hs] at hsorted hperm
    have hvall : ∀ u ∈ t :: ts, u.Valid := fun u hu => h u (hperm.mem_iff.mp hu)
    rw [List.sorted_cons] at hsorted
    obtain ⟨h1, h2, _⟩ := merge_loop_go ts t (hvall t (List.mem_cons_self t ts))
      (fun u hu => hvall u (List.mem_cons_of_mem t hu)) hsorted.2 hsorted.1
    exact ⟨h1, h2⟩

theorem merge_sep_eq : ∀ (ts : List Trip) (cur : Trip),
    List.Chain' (fun a b : Trip => a.stop + 2 ≤ b.start) (cur :: ts) →
    merge_loop cur ts = cur :: ts
  | [], cur, _ => by rw [merge_loop]
  | t :: ts, cur, hch => by
    rw [List.chain'_cons] at hch
    rw [merge_loop, if_neg (by omega : ¬t.start ≤ cur.stop + 1)]
    rw [merge_sep_eq ts t hch.2]

theorem pairwise_sep_to_le : ∀ (l : List Trip), (∀ u ∈ l, u.Valid) →
    l.Pairwise (fun a b : Trip => a.stop + 2 ≤ b.start) →
    l.Pairwise (fun a b : Trip => a.start ≤ b.start) := by
  intro l
  induction l with
  | nil => simp
  | cons a l ih =>
    intro hv hp
    rw [List.pairwise_cons] at hp ⊢
    refine ⟨fun b hb => ?_, ih (fun u hu => hv u (List.mem_cons_of_mem a hu)) hp.2⟩
    have hva := hv a (List.mem_cons_self a l)
    have hab := hp.1 b hb
    unfold Trip.Valid at hva
    omega

theorem pairwise_sep_to_lt : ∀ (l : List Trip), (∀ u ∈ l, u.Valid) →
    l.Pairwise (fun a b : Trip => a.stop + 2 ≤ b.start) →
    l.Pairwise (fun a b : Trip => a.start < b.start) := by
  intro l
  induction l with
  | nil => simp
  | cons a l ih =>
    intro hv hp
    rw [List.pairwise_cons] at hp ⊢
    refine ⟨fun b hb => ?_, ih (fun u hu => hv u (List.mem_cons_of_mem a hu)) hp.2⟩
    have hva := hv a (List.mem_cons_self a l)
    have hab := hp.1 b hb
    unfold Trip.Valid at hva
    omega

theorem merge_of_sep (l : List Trip) (hval : ∀ u ∈ l, u.Valid)
    (hpair : l.Pairwise (fun a b : Trip => a.stop + 2 ≤ b.start)) :
    merge_overlapping_trips l = l := by
  have hle := pairwise_sep_to_le l hval hpair
  have hsort_eq : List.insertionSort (fun a b : Trip => a.start ≤ b.start) l = l :=
    List.Sorted.insertionSort_eq hle
  unfold merge_overlapping_trips
  rw [hsort_eq]
  cases l with
  | nil => rfl
  | cons m ms => exact merge_sep_eq ms m (List.Pairwise.chain' hpair)

/-! ## Helper lemmas: the presence record -/

theorem set_ones_length : ∀ (c : Nat) (fs : List Int) (i : Nat),
    (set_ones fs i c).length = fs.length
  | 0, fs, i => by rw [set_ones]
  | c + 1, fs, i => by rw [set_ones, set_ones_length c, List.length_set]

theorem set_ones_getD : ∀ (c : Nat) (fs : List Int) (i k : Nat),
    (set_ones fs i c).getD k 0 =
      if i ≤ k ∧ k < i + c ∧ k < fs.length then 1 else fs.getD k 0
  | 0, fs, i, k => by
    rw [set_ones, if_neg (by omega)]
  | c + 1, fs, i, k => by
    rw [set_ones, set_ones_getD c, List.length_set]
    by_cases hik : i = k
    · subst hik
      by_cases hlen : i < fs.length
      · rw [if_neg (by omega), if_pos ⟨le_refl i, by omega, hlen⟩]
        rw [List.getD_eq_getElem?_getD, List.getElem?_set, if_pos rfl, if_pos hlen]
        rfl
      · rw [if_neg (by omega), if_neg (by omega)]
        rw [List.getD_eq_getElem?_getD, List.getElem?_set, if_pos rfl, if_neg hlen,
          List.getD_eq_getElem?_getD, List.getElem?_eq_none (by omega)]
    · rw [List.getD_eq_getElem?_getD (fs.set i 1), List.getElem?_set, if_neg hik,
        ← List.getD_eq_getElem?_getD]
      by_cases hc : i + 1 ≤ k ∧ k < i + 1 + c ∧ k < fs.length
      · rw [if_pos hc, if_pos (by omega)]
      · rw [if_neg hc, if_neg (by omega)]

theorem mark_trip_length (p : Period) (fs : List Int) (t : Trip) :
    (mark_trip p fs t).length = fs.length := by
  simp only [mark_trip]
  split
  · rfl
  · rw [set_ones_length]

theorem mark_trip_getD (p : Period) (fs : List Int) (t : Trip) (k : Nat) :
    (mark_trip p fs t).getD k 0 =
      if max t.start p.1 ≤ p.1 + (k : Int) ∧ p.1 + (k : Int) ≤ min t.stop p.2 ∧
          k < fs.length then 1
      else fs.getD k 0 := by
  simp only [mark_trip]
  have hmax : p.1 ≤ max t.start p.1 := le_max_right _ _
  by_cases he : min t.stop p.2 < max t.start p.1
  · rw [if_pos he, if_neg (by omega)]
  · rw [if_neg he, set_ones_getD]
    by_cases hc : max t.start p.1 ≤ p.1 + (k : Int) ∧ p.1 + (k : Int) ≤ min t.stop p.2 ∧
        k < fs.length
    · rw [if_pos (by omega), if_pos hc]
    · rw [if_neg (by omega), if_neg hc]

theorem foldl_mark_length : ∀ (trips : List Trip) (p : Period) (fs : List Int),
    (trips.foldl (mark_trip p) fs).length = fs.length
  | [], _, _ => rfl
  | t :: ts, p, fs => by
    rw [List.foldl_cons, foldl_mark_length ts, mark_trip_length]

theorem foldl_mark_getD : ∀ (trips : List Trip) (p : Period) (fs : List Int) (k : Nat),
    ((trips.foldl (mark_trip p) fs).getD k 0 = 1 ↔
      ((∃ t ∈ trips, max t.start p.1 ≤ p.1 + (k : Int) ∧
          p.1 + (k : Int) ≤ min t.stop p.2) ∧ k < fs.length) ∨
        fs.getD k 0 = 1)
  | [], p, fs, k => by simp
  | t :: ts, p, fs, k => by
    rw [List.foldl_cons, foldl_mark_getD ts p (mark_trip p fs t) k, mark_trip_length,
      mark_trip_getD]
    by_cases hcov : max t.start p.1 ≤ p.1 + (k : Int) ∧ p.1 + (k : Int) ≤ min t.stop p.2 ∧
        k < fs.length
    · rw [if_pos hcov]
      constructor
      · intro _
        exact Or.inl ⟨⟨t, List.mem_cons_self t ts, hcov.1, hcov.2.1⟩, hcov.2.2⟩
      · intro _
        exact Or.inr rfl
    · rw [if_neg hcov]
      constructor
      · rintro (⟨⟨u, hu, hcov'⟩, hk⟩ | hfs)
        · exact Or.inl ⟨⟨u, List.mem_cons_of_mem t hu, hcov'⟩, hk⟩
        · exact Or.inr hfs
      · rintro (⟨⟨u, hu, hcov'⟩, hk⟩ | hfs)
        · rcases List.mem_cons.mp hu with h | h
          · rw [h] at hcov'
            exact absurd ⟨hcov'.1, hcov'.2, hk⟩ hcov
          · exact Or.inl ⟨⟨u, h, hcov'⟩, hk⟩
        · exact Or.inr hfs

theorem replicate_getD (n k : Nat) : (List.replicate n (0 : Int)).getD k 0 = 0 := by
  rw [List.getD_eq_getElem?_getD, List.getElem?_replicate]
  split <;> rfl

theorem build_base (trips : List Trip) (p : Period) :
    (build_abroad_day_flags trips p).2 = p.1 := by
  simp only [build_abroad_day_flags]
  split <;> rfl

theorem build_length (trips : List Trip) (p : Period) :
    (build_abroad_day_flags trips p).1.length = (p.2 - p.1 + 1).toNat := by
  simp only [build_abroad_day_flags]
  split
  · simp
  · rw [foldl_mark_length]
    simp

theorem build_getD (trips : List Trip) (p : Period) (k : Nat) :
    ((build_abroad_day_flags trips p).1.getD k 0 = 1 ↔
      (∃ t ∈ trips, max t.start p.1 ≤ p.1 + (k : Int) ∧
          p.1 + (k : Int) ≤ min t.stop p.2) ∧ k < (p.2 - p.1 + 1).toNat) := by
  simp only [build_abroad_day_flags]
  split
  · rename_i hemp
    rw [List.isEmpty_iff] at hemp
    subst hemp
    simp [replicate_getD]
  · rw [foldl_mark_getD, List.length_replicate]
    simp [replicate_getD]

/-! ## Helper lemmas: worst-window selection and the evaluator -/

theorem max_by_days_first_max : ∀ (xs : List (Int × Int × Int)) (x : Int × Int × Int),
    ∃ l1 l2, x :: xs = l1 ++ (max_by_days x xs) :: l2 ∧
      (∀ v ∈ l1, v.2.2 < (max_by_days x xs).2.2) ∧
      (∀ v ∈ l2, v.2.2 ≤ (max_by_days x xs).2.2)
  | [], x => ⟨[], [], rfl, by simp, by simp⟩
  | y :: ys, x => by
    have hstep : max_by_days x (y :: ys) =
        max_by_days (if x.2.2 < y.2.2 then y else x) ys := by
      rw [max_by_days, List.foldl_cons, max_by_days]
    by_cases hxy : x.2.2 < y.2.2
    · rw [hstep, if_pos hxy]
      obtain ⟨l1, l2, hdec, hl1, hl2⟩ := max_by_days_first_max ys y
      have hyw : y.2.2 ≤ (max_by_days y ys).2.2 := by
        cases l1 with
        | nil =>
          rw [List.nil_append] at hdec
          injection hdec with h1 _
          exact le_of_eq (congrArg (fun z => z.2.2) h1)
        | cons a l1' =>
          rw [List.cons_append] at hdec
          injection hdec with h1 _
          have hya : y.2.2 = a.2.2 := congrArg (fun z => z.2.2) h1
          have ha := hl1 a (List.mem_cons_self a l1')
          omega
      refine ⟨x :: l1, l2, ?_, ?_, hl2⟩
      · rw [List.cons_append, ← hdec]
      · intro v hv
        rcases List.mem_cons.mp hv with h | h
        · rw [h]; omega
        · exact hl1 v h
    · rw [hstep, if_neg hxy]
      obtain ⟨l1, l2, hdec, hl1, hl2⟩ := max_by_days_first_max ys x
      cases l1 with
      | nil =>
        rw [List.nil_append] at hdec
        injection hdec with h1 h2
        refine ⟨[], y :: l2, ?_, by simp, ?_⟩
        · rw [List.nil_append, ← h1, h2]
        · intro v hv
          rcases List.mem_cons.mp hv with h | h
          · have hxw : x.2.2 = (max_by_days x ys).2.2 := congrArg (fun z => z.2.2) h1
            have hv2 : v.2.2 = y.2.2 := congrArg (fun z => z.2.2) h
            omega
          · exact hl2 v h
      | cons a l1' =>
        rw [List.cons_append] at hdec
        injection hdec with h1 h2
        have hx : x.2.2 < (max_by_days x ys).2.2 := by
          have hxa : x.2.2 = a.2.2 := congrArg (fun z => z.2.2) h1
          have ha := hl1 a (List.mem_cons_self a l1')
          omega
        refine ⟨x :: y :: l1', l2, ?_, ?_, hl2⟩
        · rw [List.cons_append, List.cons_append]
          conv_lhs => rw [h2]
        · intro v hv
          rcases List.mem_cons.mp hv with h | h
          · rw [h]; exact hx
          · rcases List.mem_cons.mp h with h' | h'
            · rw [h']; omega
            · exact hl1 v (List.mem_cons_of_mem a h')

theorem check_abroad_days_inv (trips : List Trip) (p : Period) (wd ma : Int)
    (ok : Bool) (vs : List (Int × Int × Int)) (worst : Option (Int × Int × Int))
    (hc : check_abroad_days trips p wd ma = some (ok, vs, worst)) :
    ok = vs.isEmpty ∧
      (vs = [] → worst = none) ∧
      (∀ x xs, vs = x :: xs → worst = some (max_by_days x xs)) ∧
      ∃ raw, rolling_window_violations
          (build_abroad_day_flags (merge_overlapping_trips
            (trips.filterMap (fun t => clamp_trip_to_period t p))) p).1 wd ma = some raw ∧
        vs = raw.map (fun v =>
          ((build_abroad_day_flags (merge_overlapping_trips
              (trips.filterMap (fun t => clamp_trip_to_period t p))) p).2 + v.1,
            (build_abroad_day_flags (merge_overlapping_trips
              (trips.filterMap (fun t => clamp_trip_to_period t p))) p).2 + v.2.1,
            v.2.2)) := by
  simp only [check_abroad_days] at hc
  rw [Option.map_eq_some'] at hc
  obtain ⟨raw, hr, hf⟩ := hc
  cases raw with
  | nil =>
    simp only [List.map_nil, List.isEmpty_nil, Prod.mk.injEq] at hf
    obtain ⟨h1, h2, h3⟩ := hf
    refine ⟨by rw [← h1, ← h2]; rfl, fun _ => h3.symm, ?_, [], hr, h2.symm⟩
    intro x xs hxs
    rw [← h2] at hxs
    exact absurd hxs (by simp)
  | cons r rs =>
    simp only [List.map_cons, List.isEmpty_cons, Prod.mk.injEq] at hf
    obtain ⟨h1, h2, h3⟩ := hf
    refine ⟨by rw [← h1, ← h2]; rfl, ?_, ?_, r :: rs, hr, by rw [← h2]; rfl⟩
    · intro hv
      rw [← h2] at hv
      exact absurd hv (by simp)
    · intro x xs hxs
      rw [← h2] at hxs
      injection hxs with hx hxs'
      rw [← h3, hx, hxs']

theorem rolling_pairwise_fst (flags : List Int) (wd ma : Int)
    (raw : List (Int × Int × Int))
    (hr : rolling_window_violations flags wd ma = some raw) :
    raw.Pairwise (fun u v => u.1 < v.1) := by
  unfold rolling_window_violations at hr
  by_cases hn : flags.length = 0
  · rw [if_pos hn] at hr
    have : raw = [] := (Option.some.inj hr).symm
    rw [this]
    exact List.Pairwise.nil
  · rw [if_neg hn] at hr
    obtain ⟨e, he, hsub⟩ := rwv_loop_fst (pre_sums flags) (flags.length : Int) wd ma
      ((List.range flags.length).map (fun k : Nat => (k : Int))) [] raw hr
    rw [List.nil_append] at he
    subst he
    have hpw : ((List.range flags.length).map (fun k : Nat => (k : Int))).Pairwise
        (fun a b : Int => a < b) := by
      rw [List.pairwise_map]
      exact (List.pairwise_lt_range flags.length).imp (fun h => by exact_mod_cast h)
    have := List.Pairwise.sublist hsub hpw
    rw [List.pairwise_map] at this
    exact this

theorem count_present_nonpos (flags : List Int) (a b : Int) (h : b < a) :
    count_present flags a b = 0 := by
  unfold count_present
  have hz : (b - a + 1).toNat = 0 := by omega
  rw [hz]
  simp

theorem scan_spec_zero_wd_len (flags : List Int) (ma : Int) (hma : ma < 0) :
    (scan_spec flags 0 ma).length = flags.length := by
  unfold scan_spec
  rw [List.filter_eq_self.mpr ?hall, List.length_map, List.length_map, List.length_range]
  case hall =>
    intro v hv
    rw [List.mem_map] at hv
    obtain ⟨s, hsmem, rfl⟩ := hv
    rw [decide_eq_true_eq, count_present_nonpos _ _ _ (by omega)]
    exact hma

set_option maxHeartbeats 4000000 in
set_option maxRecDepth 100000 in
theorem scenario_check_eval :
    check_abroad_days scenario_trips (0, 222) 182 180 =
      some (false, [(5, 186, 181), (40, 221, 181)],
        some ((5 : Int), (186 : Int), (181 : Int))) := by
  have h1 : scenario_trips.filterMap
      (fun t => clamp_trip_to_period t ((0 : Int), (222 : Int))) = scenario_trips := by
    decide
  have h2 : merge_overlapping_trips scenario_trips = scenario_trips := by decide
  have h3 : build_abroad_day_flags scenario_trips ((0 : Int), (222 : Int)) =
      (scenario_flags, 0) := by decide
  have h4 : rolling_window_violations scenario_flags 182 180 =
      some [(5, 186, 181), (40, 221, 181)] := by decide
  simp only [check_abroad_days, h1, h2, h3, h4, Option.map_some']
  decide

/-! ## Claim theorems -/

/-- C1: whenever `check_abroad_days` reports at least one violation, the
returned worst window is the first violation (in scan order) attaining the
maximum present-day count: every violation before it in the list has a
strictly smaller count and every one after it a count no larger, the reported
violations are strictly increasing in window start, and in the Scenario E
instance (two violations tied at 181 present days at window starts 5 and 40)
the worst window reported is the one at start index 5. -/
theorem c1_worst_window_selection (trips : List Trip) (p : Period) (wd ma : Int)
    (ok : Bool) (vs : List (Int × Int × Int)) (worst : Option (Int × Int × Int))
    (hc : check_abroad_days trips p wd ma = some (ok, vs, worst)) (hne : vs ≠ []) :
    (∃ w l1 l2, worst = some w ∧ vs = l1 ++ w :: l2 ∧
        (∀ v ∈ l1, v.2.2 < w.2.2) ∧ (∀ v ∈ l2, v.2.2 ≤ w.2.2)) ∧
      vs.Pairwise (fun a b => a.1 < b.1) ∧
      check_abroad_days scenario_trips (0, 222) 182 180 =
        some (false, [(5, 186, 181), (40, 221, 181)],
          some ((5 : Int), (186 : Int), (181 : Int))) := by
  obtain ⟨hok, hnil, hcons, raw, hr, hvs⟩ :=
    check_abroad_days_inv trips p wd ma ok vs worst hc
  refine ⟨?_, ?_, scenario_check_eval⟩
  · cases hv : vs with
    | nil => exact absurd hv hne
    | cons x xs =>
      obtain ⟨l1, l2, hdec, hl1, hl2⟩ := max_by_days_first_max xs x
      exact ⟨max_by_days x xs, l1, l2, hcons x xs hv, hv ▸ hdec, hl1, hl2⟩
  · rw [hvs, List.pairwise_map]
    exact (rolling_pairwise_fst _ wd ma raw hr).imp (fun h => by omega)

/-- C1 witness: the theorem applied at a concrete one-trip instance whose
evaluation reports a single violation. -/
theorem c1_worst_window_selection_witness :
    (∃ w l1 l2, some ((0 : Int), (0 : Int), (1 : Int)) = some w ∧
        [((0 : Int), (0 : Int), (1 : Int))] = l1 ++ w :: l2 ∧
        (∀ v ∈ l1, v.2.2 < w.2.2) ∧ (∀ v ∈ l2, v.2.2 ≤ w.2.2)) ∧
      [((0 : Int), (0 : Int), (1 : Int))].Pairwise (fun a b => a.1 < b.1) ∧
      check_abroad_days scenario_trips (0, 222) 182 180 =
        some (false, [(5, 186, 181), (40, 221, 181)],
          some ((5 : Int), (186 : Int), (181 : Int))) :=
  c1_worst_window_selection [⟨0, 0⟩] (0, 0) 1 0 false
    [((0 : Int), (0 : Int), (1 : Int))] (some ((0 : Int), (0 : Int), (1 : Int)))
    (by decide) (by decide)

/-- C2 counterexample: at `window_days = -1` (allowed by the claim's "every
windowDays") the scan reads a wrapped prefix-sum entry and emits the violation
`(0, -2, 1)` on the record `[1]` with `max_allowed = 0`, although the
present-day count of the window `[0, -2]` is `0`, which is not greater than
`0`; so the scan output differs from the claimed emission rule. -/
theorem c2_scan_semantics_counterexample :
    rolling_window_violations [1] (-1) 0 ≠ some (scan_spec [1] (-1) 0) ∧
      rolling_window_violations [1] (-1) 0 =
        some [((0 : Int), (-2 : Int), (1 : Int))] ∧
      count_present [1] 0 (-2) = 0 := by decide

/-- C2 (amended to nonnegative `window_days`): the scan emits, for each start,
the truncated window with its present-day count exactly when that count
strictly exceeds `max_allowed` (`scan_spec`), in strictly increasing order of
window start, and an empty record yields no violations. -/
theorem c2_scan_semantics_amended (flags : List Int) (wd ma : Int) (hwd : 0 ≤ wd) :
    rolling_window_violations flags wd ma = some (scan_spec flags wd ma) ∧
      (scan_spec flags wd ma).Pairwise (fun a b => a.1 < b.1) ∧
      rolling_window_violations ([] : List Int) wd ma = some [] := by
  have h1 := rolling_eq_scan_spec flags wd ma hwd
  exact ⟨h1, rolling_pairwise_fst flags wd ma _ h1, rfl⟩

/-- C2 witness: the amended scan semantics applied at a concrete record. -/
theorem c2_scan_semantics_witness :
    rolling_window_violations [1, 0] 2 0 = some (scan_spec [1, 0] 2 0) ∧
      (scan_spec [1, 0] 2 0).Pairwise (fun a b => a.1 < b.1) ∧
      rolling_window_violations ([] : List Int) 2 0 = some [] :=
  c2_scan_semantics_amended [1, 0] 2 0 (by decide)

/-- C3: for valid input intervals, the merge output is valid, sorted
ascending, pairwise disjoint with at least a two-day gap between consecutive
intervals (`a.stop + 2 ≤ b.start` pairwise), and merging the empty set yields
the empty set. -/
theorem c3_merge_invariant (trips : List Trip) (h : ∀ t ∈ trips, t.Valid) :
    (∀ u ∈ merge_overlapping_trips trips, u.Valid) ∧
      (merge_overlapping_trips trips).Pairwise
        (fun a b : Trip => a.stop + 2 ≤ b.start) ∧
      (merge_overlapping_trips trips).Pairwise
        (fun a b : Trip => a.start < b.start) ∧
      merge_overlapping_trips ([] : List Trip) = [] := by
  obtain ⟨h1, h2⟩ := merge_facts trips h
  exact ⟨h1, h2, pairwise_sep_to_lt _ h1 h2, rfl⟩

/-- C3 witness: the merge invariant applied at a concrete overlapping set. -/
theorem c3_merge_invariant_witness :
    (∀ u ∈ merge_overlapping_trips
        [Trip.mk 0 5, Trip.mk 3 8, Trip.mk 10 12], u.Valid) ∧
      (merge_overlapping_trips
        [Trip.mk 0 5, Trip.mk 3 8, Trip.mk 10 12]).Pairwise
        (fun a b : Trip => a.stop + 2 ≤ b.start) ∧
      (merge_overlapping_trips
        [Trip.mk 0 5, Trip.mk 3 8, Trip.mk 10 12]).Pairwise
        (fun a b : Trip => a.start < b.start) ∧
      merge_overlapping_trips ([] : List Trip) = [] :=
  c3_merge_invariant [Trip.mk 0 5, Trip.mk 3 8, Trip.mk 10 12] (by decide)

/-- C4: merging is idempotent on valid interval sets:
`merge (merge S) = merge S`. -/
theorem c4_merge_idempotent (trips : List Trip) (h : ∀ t ∈ trips, t.Valid) :
    merge_overlapping_trips (merge_overlapping_trips trips) =
      merge_overlapping_trips trips := by
  obtain ⟨h1, h2⟩ := merge_facts trips h
  exact merge_of_sep _ h1 h2

/-- C4 witness: idempotence applied at a concrete overlapping set. -/
theorem c4_merge_idempotent_witness :
    merge_overlapping_trips (merge_overlapping_trips
        [Trip.mk 4 9, Trip.mk 0 5, Trip.mk 11 12]) =
      merge_overlapping_trips [Trip.mk 4 9, Trip.mk 0 5, Trip.mk 11 12] :=
  c4_merge_idempotent [Trip.mk 4 9, Trip.mk 0 5, Trip.mk 11 12] (by decide)

/-- C5: for a valid period, the presence-record builder returns the period
start as base, a record of length `(period.end - period.start).days + 1`, and
for every day `d` of the period the entry at index `(d - period.start).days`
is `1` exactly when `d` falls within some input interval (the intervals being
clamped to the period again during the build). -/
theorem c5_presence_record (trips : List Trip) (p : Period) (d : Int)
    (hp : p.1 ≤ p.2) (hd1 : p.1 ≤ d) (hd2 : d ≤ p.2) :
    (build_abroad_day_flags trips p).2 = p.1 ∧
      (build_abroad_day_flags trips p).1.length = (p.2 - p.1).toNat + 1 ∧
      ((build_abroad_day_flags trips p).1.getD (d - p.1).toNat 0 = 1 ↔
        ∃ t ∈ trips, t.start ≤ d ∧ d ≤ t.stop) := by
  refine ⟨build_base trips p, ?_, ?_⟩
  · rw [build_length]
    omega
  · rw [build_getD]
    constructor
    · rintro ⟨⟨t, ht, hcov1, hcov2⟩, _⟩
      refine ⟨t, ht, ?_, ?_⟩ <;> omega
    · rintro ⟨t, ht, hts, hte⟩
      refine ⟨⟨t, ht, ?_, ?_⟩, ?_⟩ <;> omega

/-- C5 witness: the presence-record guarantee applied at a concrete interval
set, period and day. -/
theorem c5_presence_record_witness :
    (build_abroad_day_flags [Trip.mk 2 4] (0, 6)).2 = (0, (6 : Int)).1 ∧
      (build_abroad_day_flags [Trip.mk 2 4] (0, 6)).1.length =
        (((0, (6 : Int)).2 - (0, (6 : Int)).1).toNat + 1) ∧
      ((build_abroad_day_flags [Trip.mk 2 4] (0, 6)).1.getD
          ((3 : Int) - (0, (6 : Int)).1).toNat 0 = 1 ↔
        ∃ t ∈ [Trip.mk 2 4], t.start ≤ 3 ∧ (3 : Int) ≤ t.stop) :=
  c5_presence_record [Trip.mk 2 4] (0, 6) 3 (by decide) (by decide) (by decide)

/-- C6 counterexample: with the invalid configuration `window_days = 0`,
`max_allowed = -1` (non-positive window, negative maximum) the evaluator is
not rejected and returns a complete compliance report — a non-compliant one
with a degenerate violation at every start — rather than an error result. -/
theorem c6_invalid_config_counterexample :
    check_abroad_days [] (0, 1) 0 (-1) =
      some (false,
        [((0 : Int), (-1 : Int), (0 : Int)), ((1 : Int), (0 : Int), (0 : Int))],
        some ((0 : Int), (-1 : Int), (0 : Int))) := by decide

/-- C6 (amended): no configuration validation exists anywhere: for any trips,
any valid period, `window_days = 0` (non-positive) and any negative
`max_allowed`, the evaluator still produces a complete report, and that
report is non-compliant with a nonempty violation list. -/
theorem c6_invalid_config_amended (trips : List Trip) (p : Period) (ma : Int)
    (hp : p.1 ≤ p.2) (hma : ma < 0) :
    (check_abroad_days trips p 0 ma).map (fun r => (r.1, r.2.1.isEmpty)) =
      some (false, false) := by
  have hroll := rolling_eq_scan_spec
    ((build_abroad_day_flags (merge_overlapping_trips
      (trips.filterMap (fun t => clamp_trip_to_period t p))) p).1) 0 ma (le_refl 0)
  have hlen : ((build_abroad_day_flags (merge_overlapping_trips
      (trips.filterMap (fun t => clamp_trip_to_period t p))) p).1).length =
      (p.2 - p.1 + 1).toNat := build_length _ _
  have hlen2 := scan_spec_zero_wd_len ((build_abroad_day_flags (merge_overlapping_trips
      (trips.filterMap (fun t => clamp_trip_to_period t p))) p).1) ma hma
  simp only [check_abroad_days]
  rw [hroll, Option.map_some', Option.map_some']
  cases hsc : scan_spec ((build_abroad_day_flags (merge_overlapping_trips
      (trips.filterMap (fun t => clamp_trip_to_period t p))) p).1) 0 ma with
  | nil =>
    rw [hsc] at hlen2
    simp only [List.length_nil] at hlen2
    omega
  | cons x xs => simp

/-- C6 witness: the amended statement applied at empty trips, the period
`(0, 1)` and `max_allowed = -1`. -/
theorem c6_invalid_config_witness :
    (check_abroad_days [] (0, 1) 0 (-1)).map (fun r => (r.1, r.2.1.isEmpty)) =
      some (false, false) :=
  c6_invalid_config_amended [] (0, 1) (-1) (by decide) (by decide)

/-- C7 counterexample: a zero-span period (`from = to = 0`, span
`(to - from).days = 0`) is not rejected: the CLI path evaluates it as a
normal one-day assessment period and returns an ordinary compliant report
rather than an error result. -/
theorem c7_empty_period_counterexample :
    run_check [] 0 0 365 180 = Except.ok (true, [], none) ∧ (0 : Int) - 0 ≤ 0 := by
  decide

/-- C7 (amended): only a strictly negative span is rejected, and by the CLI
wrapper (`SystemExit` when the period end is before the start) before any
evaluation; a zero-span period is evaluated normally and the core evaluator
itself performs no period validation. -/
theorem c7_negative_span_rejected (trips : List Trip)
    (from_date to_date wd md : Int) (h : to_date - from_date < 0) :
    run_check trips from_date to_date wd md =
      Except.error CheckError.invalidPeriod := by
  unfold run_check
  rw [if_pos (by omega)]

/-- C7 witness: the amended rejection applied at a concrete backwards
period. -/
theorem c7_negative_span_rejected_witness :
    run_check [] 5 3 365 180 = Except.error CheckError.invalidPeriod :=
  c7_negative_span_rejected [] 5 3 365 180 (by decide)

/-- C8: for a fixed presence record and window size, raising the threshold
from `m1` to `m2` only removes violations: every violation emitted at `m2` is
also emitted at `m1` with identical start index, end index and count (the
`m2` output is a sublist of the `m1` output). -/
theorem c8_window_monotonicity (flags : List Int) (wd m1 m2 : Int)
    (vs2 : List (Int × Int × Int)) (h12 : m1 ≤ m2)
    (h2 : rolling_window_violations flags wd m2 = some vs2) :
    ∃ vs1, rolling_window_violations flags wd m1 = some vs1 ∧ vs2.Sublist vs1 :=
  rolling_mono flags wd m1 m2 h12 vs2 h2

/-- C8 witness: monotonicity applied at a concrete record and thresholds
`0 ≤ 1`. -/
theorem c8_window_monotonicity_witness :
    ∃ vs1, rolling_window_violations [1, 1] 2 0 = some vs1 ∧
      List.Sublist [((0 : Int), (1 : Int), (2 : Int))] vs1 :=
  c8_window_monotonicity [1, 1] 2 0 1 [((0 : Int), (1 : Int), (2 : Int))]
    (by decide) (by decide)

/-- C9 counterexample: at `window_days = -1` (allowed by the claim's "every
windowDays") the query path reads a wrapped prefix-sum entry: over the period
`(0, 1)` with both days present, `max_days = 0` and query start `1`, the
returned remaining value is `1`, while the present-day count of the clamped
query window is `0`, so `remaining > 0` yet
`remaining + presentCountInWindow = 1 ≠ 0 = maxAllowed`. -/
theorem c9_allowance_identity_counterexample :
    remaining_query [Trip.mk 0 1] (0, 1) (-1) 0 1 = some 1 ∧
      count_present (build_abroad_day_flags (merge_overlapping_trips
        ([Trip.mk 0 1].filterMap (fun t => clamp_trip_to_period t (0, 1)))) (0, 1)).1
        ((if (1 : Int) < (0, (1 : Int)).1 then (0, (1 : Int)).1 else 1) - (0, (1 : Int)).1)
        (min ((if (1 : Int) < (0, (1 : Int)).1 then (0, (1 : Int)).1 else 1) + (-1) - 1)
          (0, (1 : Int)).2 - (0, (1 : Int)).1) = 0 ∧
      ¬((1 : Int) + 0 = 0) := by decide

/-- C9 (amended to nonnegative `window_days`): whenever the allowance query
returns a value `r`, then with `pc` the presence count over the clamped query
window, `r = max 0 (maxAllowed - pc)`; hence `r + pc = maxAllowed` whenever
`r > 0`, and `pc ≥ maxAllowed` whenever `r = 0`. -/
theorem c9_allowance_identity (trips : List Trip) (p : Period) (wd ma q r pc : Int)
    (hp : p.1 ≤ p.2) (hw : 0 ≤ wd) (hma : 0 ≤ ma)
    (h : remaining_query trips p wd ma q = some r)
    (hpc : pc = count_present
        (build_abroad_day_flags (merge_overlapping_trips
          (trips.filterMap (fun t => clamp_trip_to_period t p))) p).1
        ((if q < p.1 then p.1 else q) - p.1)
        (min ((if q < p.1 then p.1 else q) + wd - 1) p.2 - p.1)) :
    r = max 0 (ma - pc) ∧ (0 < r → r + pc = ma) ∧ (r = 0 → ma ≤ pc) := by
  simp only [remaining_query] at h
  rw [build_base] at h
  have hlen := build_length (merge_overlapping_trips
    (trips.filterMap (fun t => clamp_trip_to_period t p))) p
  have hq1 : p.1 ≤ (if q < p.1 then p.1 else q) := by split <;> omega
  set q' := if q < p.1 then p.1 else q with hq'def
  have hsi0 : (0 : Int) ≤ q' - p.1 := by omega
  by_cases hsile : q' - p.1 ≤
      (((build_abroad_day_flags (merge_overlapping_trips
        (trips.filterMap (fun t => clamp_trip_to_period t p))) p).1.length : Int))
  · rw [sum_in_window_eq _ _ wd hsi0 hsile hw, Option.map_some'] at h
    have hr := (Option.some.inj h).symm
    have hcast : (((build_abroad_day_flags (merge_overlapping_trips
        (trips.filterMap (fun t => clamp_trip_to_period t p))) p).1.length : Int)) =
        p.2 - p.1 + 1 := by
      rw [hlen]
      omega
    have harg : min (q' - p.1 + wd - 1)
        ((((build_abroad_day_flags (merge_overlapping_trips
          (trips.filterMap (fun t => clamp_trip_to_period t p))) p).1.length : Int)) - 1) =
        min (q' + wd - 1) p.2 - p.1 := by omega
    rw [harg, ← hpc] at hr
    refine ⟨hr, ?_, ?_⟩ <;> omega
  · exfalso
    rw [sum_in_window_none _ _ wd (by omega) (by omega) hw] at h
    simp at h

/-- C9 witness: the allowance identity applied at a concrete one-day trip,
one-day window and `maxAllowed = 2`, where the query returns `1`. -/
theorem c9_allowance_identity_witness :
    (1 : Int) = max 0 (2 - 1) ∧ ((0 : Int) < 1 → (1 : Int) + 1 = 2) ∧
      ((1 : Int) = 0 → (2 : Int) ≤ 1) :=
  c9_allowance_identity [Trip.mk 0 0] (0, 1) 1 2 0 1 1
    (by decide) (by decide) (by decide) (by decide) (by decide)

/-- C10: `sum_in_window` is total up to the record bound and returns the
present-day count over the truncated window (0 for an empty record); on the
allowance-query path, any query start at most one day past the period end
yields a result, while a query start strictly beyond that makes the
prefix-sum index go out of bounds (an `IndexError`, modelled `none`). -/
theorem c10_sum_window_totality (flags : List Int) (si wd : Int) (trips : List Trip)
    (p : Period) (md q1 q2 : Int)
    (h0 : 0 ≤ si) (h1 : si ≤ (flags.length : Int)) (hw : 0 ≤ wd)
    (hp : p.1 ≤ p.2) (hq1 : q1 ≤ p.2 + 1) (hq2 : p.2 + 1 < q2) :
    sum_in_window flags si wd =
        some (count_present flags si (min (si + wd - 1) ((flags.length : Int) - 1))) ∧
      (remaining_query trips p wd md q1).isSome = true ∧
      remaining_query trips p wd md q2 = none := by
  refine ⟨sum_in_window_eq flags si wd h0 h1 hw, ?_, ?_⟩
  · simp only [remaining_query]
    rw [build_base]
    have hlen := build_length (merge_overlapping_trips
      (trips.filterMap (fun t => clamp_trip_to_period t p))) p
    have hqa : p.1 ≤ (if q1 < p.1 then p.1 else q1) := by split <;> omega
    have hqb : (if q1 < p.1 then p.1 else q1) ≤ p.2 + 1 := by split <;> omega
    rw [sum_in_window_eq _ _ wd (by omega) (by omega) hw]
    rfl
  · simp only [remaining_query]
    rw [build_base]
    have hlen := build_length (merge_overlapping_trips
      (trips.filterMap (fun t => clamp_trip_to_period t p))) p
    rw [if_neg (by omega : ¬q2 < p.1)]
    rw [sum_in_window_none _ _ wd (by omega) (by omega) hw]
    rfl

/-- C10 witness: the totality statement applied at a concrete record, query
starts `2` (one day past the period end, in bounds) and `3` (out of
bounds). -/
theorem c10_sum_window_totality_witness :
    sum_in_window [1, 0] 1 365 =
        some (count_present [1, 0] 1 (min ((1 : Int) + 365 - 1)
          ((([1, 0] : List Int).length : Int) - 1))) ∧
      (remaining_query [] (0, 1) 365 180 2).isSome = true ∧
      remaining_query [] (0, 1) 365 180 3 = none :=
  c10_sum_window_totality [1, 0] 1 365 [] (0, 1) 180 2 3
    (by decide) (by decide) (by decide) (by decide) (by decide) (by decide)

end VisaTracker
